import Mathlib

/-!
Verification of `analyze_swiftc_trace_csv.py` (WindowsProfilingTools).

The script reconstructs nested spans from a CSV trace of entry/exit records and
renders them as indented lines with durations.  We embed the script shallowly:

* a CSV data row is a `List String` (`Row`);
* `readRow` performs the positional accesses `row[2]`, `row[3]`, `row[4]` and
  `int(row[6])` that the Python loop body performs on every row, in that order,
  with Python exceptions modelled by the `Err` type;
* `formatRowsF` is the fuel-indexed embedding of `format_rows_recursively`,
  consuming an explicit list of remaining rows (the shared `csv_reader`
  iterator) and threading the global `last_row` explicitly; `formatRows` fixes
  the fuel at `rows.length`, which is always sufficient (each recursive call
  operates on a strictly shorter list);
* Python's float division `/1000000.0` followed by `f"{delta_t}"` formatting is
  modelled exactly over the integers: `formatMicros d` renders the rational
  `d / 10^6` in decimal with trailing zeros stripped (at least one fractional
  digit kept), which agrees with Python's shortest-roundtrip float repr for the
  magnitudes appearing in the spec (Python would switch to scientific notation
  only below 1e-4).
-/

/-- Python exceptions that the script can raise while processing rows, plus a
`fuelExhausted` marker used only by the fuel-indexed recursion (provably
unreachable when the fuel is at least the number of remaining rows). -/
inductive Err where
  | indexError
  | valueError
  | assertionError
  | typeError
  | fuelExhausted
deriving Repr, DecidableEq

/-- One data row of the CSV file, as the list of its fields. -/
abbrev Row := List String

/-- `row[i]`: positional access, `IndexError` when the row is too short. -/
def getField (row : Row) (i : Nat) : Except Err String :=
  match row.get? i with
  | some s => Except.ok s
  | none => Except.error Err.indexError

/-- Value of a non-empty string of decimal digits, `none` on any other
character. -/
def decDigitsVal : List Char → Nat → Option Nat
  | [], acc => some acc
  | c :: cs, acc =>
    if '0' ≤ c ∧ c ≤ '9' then
      decDigitsVal cs (acc * 10 + (c.toNat - Char.toNat '0'))
    else none

/-- `int(s)`, modelling Python's base-10 parsing on the strings that occur in
trace files: an optional sign followed by at least one decimal digit.
(Python additionally strips surrounding whitespace and permits underscores
between digits; trace-file fields never contain either.) -/
def parsePyInt (s : String) : Option Int :=
  match s.data with
  | [] => none
  | '-' :: cs =>
    if cs = [] then none
    else (decDigitsVal cs 0).map (fun m => -(m : Int))
  | '+' :: cs =>
    if cs = [] then none
    else (decDigitsVal cs 0).map (fun m => (m : Int))
  | cs => (decDigitsVal cs 0).map (fun m => (m : Int))

/-- `int(s)`: base-10 integer parsing, `ValueError` on failure. -/
def parseInt10 (s : String) : Except Err Int :=
  match parsePyInt s with
  | some n => Except.ok n
  | none => Except.error Err.valueError

/-- `int(row[6])`. -/
def field6 (row : Row) : Except Err Int :=
  match getField row 6 with
  | Except.error e => Except.error e
  | Except.ok s => parseInt10 s

/-- The typed content the loop body extracts from a row:
`is_exit = row[2] == "exit"`, `event_name = row[3]`, `counter_name = row[4]`,
`counter_value = int(row[6])`. -/
structure TraceRec where
  isExit : Bool
  event_name : String
  counter_name : String
  counter_value : Int
deriving Repr, DecidableEq

/-- The field accesses performed on every row of the loop, in source order
(`row[2]`, `row[3]`, `row[4]`, `int(row[6])`), before the counter filter. -/
def readRow (row : Row) : Except Err TraceRec :=
  match getField row 2 with
  | Except.error e => Except.error e
  | Except.ok phase =>
    match getField row 3 with
    | Except.error e => Except.error e
    | Except.ok name =>
      match getField row 4 with
      | Except.error e => Except.error e
      | Except.ok cname =>
        match field6 row with
        | Except.error e => Except.error e
        | Except.ok v => Except.ok ⟨phase == "exit", name, cname, v⟩

/-- The distinguished delimiter counter of the recursive reconstructor. -/
def delimCounter : String := "Frontend.WallClockMicroseconds"

/-- `MAX_PRINT_DEPTH = 2`. -/
def MAX_PRINT_DEPTH : Nat := 2

/-- `"  " * depth`: the indentation prefix, the two-space string repeated
`depth` times. -/
def indentStr : Nat → String
  | 0 => ""
  | depth + 1 => "  " ++ indentStr depth

/-- Strip trailing zeros from a 6-digit fractional part: given fuel `k` and the
fractional value `g`, returns the number of digits kept and the stripped
value. -/
def stripZeros : Nat → Nat → Nat × Nat
  | 0, g => (0, g)
  | k + 1, g => if g % 10 = 0 then stripZeros k (g / 10) else (k + 1, g)

/-- Render `g` left-padded with zeros to width `w`. -/
def padNat (w : Nat) (g : Nat) : String :=
  let s := toString g
  String.mk (List.replicate (w - s.length) '0') ++ s

/-- Decimal rendering of the rational `d / 1000000`, as Python's
`f"{(d)/1000000.0}"` produces for the magnitudes relevant here: integer part,
a dot, and the fractional part with trailing zeros stripped (`".0"` when the
fraction is zero). -/
def formatMicros (d : Int) : String :=
  let sign := if d < 0 then "-" else ""
  let a := d.natAbs
  let ip := a / 1000000
  let f := a % 1000000
  if f = 0 then
    sign ++ toString ip ++ ".0"
  else
    let p := stripZeros 6 f
    sign ++ toString ip ++ "." ++ padNat p.1 p.2

/-- The span-closing step of the entry branch, after the recursion returned:
when a terminating exit row was found, `assert(exit_row[3] == event_name)`
(fatal `AssertionError` on mismatch), then the line
`event_name (int(exit_row[6]) - counter_value)/1000000.0`; when input was
exhausted instead, the lower-bound line
`event_name >=(int(last_row[6]) - counter_value)/1000000.0`.  Either line is
kept only when `depth < MAX_PRINT_DEPTH`. -/
def spanOwnLines (r : TraceRec) (depth : Nat) (exitRow? : Option Row)
    (last' : Option Row) : Except Err (List String) :=
  match exitRow? with
  | some xrow =>
    match getField xrow 3 with
    | Except.error e => Except.error e
    | Except.ok xname =>
      if xname = r.event_name then
        match field6 xrow with
        | Except.error e => Except.error e
        | Except.ok w =>
          if depth < MAX_PRINT_DEPTH then
            Except.ok [indentStr depth ++ r.event_name ++ " " ++
              formatMicros (w - r.counter_value)]
          else Except.ok []
      else Except.error Err.assertionError
  | none =>
    match last' with
    | none => Except.error Err.typeError
    | some lr =>
      match field6 lr with
      | Except.error e => Except.error e
      | Except.ok w =>
        if depth < MAX_PRINT_DEPTH then
          Except.ok [indentStr depth ++ r.event_name ++ " >=" ++
            formatMicros (w - r.counter_value)]
        else Except.ok []

/-- The fuel-indexed embedding of `format_rows_recursively`.

Arguments: fuel, the remaining rows of the shared iterator, `depth`, and the
current value of the global `last_row`.  Result on success: the accumulated
`output_lines`, the terminating exit row (`none` when input was exhausted),
the rows left unconsumed in the shared iterator, and the updated `last_row`.

The loop body of the source, for each row: update `last_row`; read fields
2/3/4/6; skip the row unless its counter is the delimiter counter; an exit row
returns immediately; an entry row recurses at `depth + 1`, then
`assert(exit_row[3] == event_name)` and renders `event_name delta` when a
terminating exit was found, or renders `event_name >=delta` from
`int(last_row[6])` when input was exhausted; the span line (emitted only when
`depth < MAX_PRINT_DEPTH`) precedes the child lines, and the loop continues on
the rows the recursion left unconsumed.
-/
def formatRowsF : Nat → List Row → Nat → Option Row →
    Except Err (List String × Option Row × List Row × Option Row)
  | _, [], _, last => Except.ok ([], none, [], last)
  | 0, _ :: _, _, _ => Except.error Err.fuelExhausted
  | fuel + 1, row :: rest, depth, _ =>
    match readRow row with
    | Except.error e => Except.error e
    | Except.ok r =>
      if r.counter_name = delimCounter then
        if r.isExit then
          Except.ok ([], some row, rest, some row)
        else
          match formatRowsF fuel rest (depth + 1) (some row) with
          | Except.error e => Except.error e
          | Except.ok (childLines, exitRow?, rem, last') =>
            match spanOwnLines r depth exitRow? last' with
            | Except.error e => Except.error e
            | Except.ok ownLines =>
              match formatRowsF fuel rem depth last' with
              | Except.error e => Except.error e
              | Except.ok (moreLines, exitRow2, rem2, last2) =>
                Except.ok (ownLines ++ childLines ++ moreLines, exitRow2, rem2, last2)
      else
        formatRowsF fuel rest depth (some row)

/-- `format_rows_recursively` on a list of data rows: the fuel
`rows.length` always suffices because every recursive call of the source
operates on a strictly shorter remainder of the shared iterator. -/
def formatRows (rows : List Row) (depth : Nat) (last : Option Row) :
    Except Err (List String × Option Row × List Row × Option Row) :=
  formatRowsF rows.length rows depth last

/-- The value of the global `last_row` after additionally consuming `rows`,
starting from `last` (each consumed row overwrites it). -/
def lastOf (rows : List Row) (last : Option Row) : Option Row :=
  rows.foldl (fun _ r => some r) last

/-- The counter value `int(last_row[6])` of an optional row, defaulting to `0`
(used only in statements, where the row is known to parse). -/
def lastVal : Option Row → Int
  | none => 0
  | some r =>
    match field6 r with
    | Except.ok w => w
    | Except.error _ => 0

/-- `STATS_DIR` as configured in the script. -/
def STATS_DIR : String := "S:\\Temp\\cassowary\\stats"

/-- The `sys.exit` message when the glob does not match exactly one file. -/
def expectedFileMsg (count : Nat) : String :=
  "Error: Expected exactly 1 trace-*.csv file in " ++ STATS_DIR ++ ", found " ++
    toString count

/-- Abort causes of the whole script. -/
inductive ProgErr where
  | fileCount (msg : String)
  | emptyFile
  | rowError (e : Err)
  | topLevelExitAssert
deriving Repr, DecidableEq

/-- The top level of the script: check that exactly one trace file matched the
glob (fatal error naming directory and count otherwise), skip the header line,
run `format_rows_recursively(csv_reader, 0)`, `assert(exit_row is None)`, and
output the lines. -/
def runProgram (trace_files : List String) (fileRows : List Row) :
    Except ProgErr (List String) :=
  if trace_files.length ≠ 1 then
    Except.error (ProgErr.fileCount (expectedFileMsg trace_files.length))
  else
    match fileRows with
    | [] => Except.error ProgErr.emptyFile
    | _header :: rows =>
      match formatRows rows 0 none with
      | Except.error e => Except.error (ProgErr.rowError e)
      | Except.ok (lines, exitRow?, _, _) =>
        match exitRow? with
        | some _ => Except.error ProgErr.topLevelExitAssert
        | none => Except.ok lines

/-! ## Token- and span-level view of the delimiter-counter records -/

/-- A structural token: an entry or exit record on the delimiter counter,
with the event name and counter value it carries. -/
inductive Tok where
  | entry (name : String) (value : Int)
  | exit (name : String) (value : Int)
deriving Repr, DecidableEq

/-- The structural token a row contributes: `none` for rows that fail to parse
or whose counter is not the delimiter counter. -/
def rowTok (row : Row) : Option Tok :=
  match readRow row with
  | Except.error _ => none
  | Except.ok r =>
    if r.counter_name = delimCounter then
      if r.isExit then some (Tok.exit r.event_name r.counter_value)
      else some (Tok.entry r.event_name r.counter_value)
    else none

/-- The sequence of structural tokens of a row list. -/
def toks (rows : List Row) : List Tok := rows.filterMap rowTok

/-- Every row parses (fields 2, 3, 4 exist and field 6 is an integer). -/
def RowsOK (rows : List Row) : Prop :=
  ∀ row ∈ rows, ∃ r, readRow row = Except.ok r

/-- Well-nested token sequences: every entry has a matching, correctly nested
exit naming the same event ("well-formed input"). -/
inductive Matched : List Tok → Prop where
  | nil : Matched []
  | node : ∀ (n : String) (v w : Int) (inner rest : List Tok),
      Matched inner → Matched rest →
      Matched (Tok.entry n v :: inner ++ Tok.exit n w :: rest)

/-- Token sequences in which no exit closes a span opened outside the
sequence: a forest of complete spans possibly followed by a chain of spans
left open at end of input.  Scanning such a sequence exhausts it without
returning a terminating exit. -/
inductive NoExit : List Tok → Prop where
  | nil : NoExit []
  | complete : ∀ (n : String) (v w : Int) (inner rest : List Tok),
      Matched inner → NoExit rest →
      NoExit (Tok.entry n v :: inner ++ Tok.exit n w :: rest)
  | openTail : ∀ (n : String) (v : Int) (rest : List Tok),
      NoExit rest → NoExit (Tok.entry n v :: rest)

/-- A reconstructed span: event name, entry counter value, exit counter value
(`none` when the span was still open at end of input), and children in
encounter order. -/
inductive Span where
  | mk (name : String) (startVal : Int) (stopVal : Option Int)
      (children : List Span)

/-- Fuel-indexed span-forest builder over tokens, following the spec's
description of the reconstruction: an exit terminates the current level; an
entry opens a span whose children are built from the deeper tokens and whose
stop value is the terminating exit's value (absent when input was
exhausted). -/
def buildSpansF : Nat → List Tok → List Span × Option (String × Int) × List Tok
  | _, [] => ([], none, [])
  | 0, ts => ([], none, ts)
  | _ + 1, Tok.exit n w :: rest => ([], some (n, w), rest)
  | fuel + 1, Tok.entry n v :: rest =>
    let c := buildSpansF fuel rest
    let s := Span.mk n v (c.2.1.map Prod.snd) c.1
    let m := buildSpansF fuel c.2.2
    (s :: m.1, m.2.1, m.2.2)

/-- The span forest of a token sequence. -/
def buildSpans (ts : List Tok) : List Span := (buildSpansF ts.length ts).1

mutual

/-- Spec-side renderer for one span at nesting depth `d`: the span's own line
(indented by `indentStr d`, i.e. two spaces per depth level, with duration
`(stop - start) / 10^6`, or the `>=` lower bound computed from the last
counter value `W` seen in the input when the span is open), emitted only when
`d < MAX_PRINT_DEPTH`, followed by the lines of its children at `d + 1`. -/
def renderSpan (W : Int) (d : Nat) : Span → List String
  | Span.mk n v stop? cs =>
    (match stop? with
     | some w =>
       if d < MAX_PRINT_DEPTH then
         [indentStr d ++ n ++ " " ++ formatMicros (w - v)]
       else []
     | none =>
       if d < MAX_PRINT_DEPTH then
         [indentStr d ++ n ++ " >=" ++ formatMicros (W - v)]
       else []) ++ renderSpans W (d + 1) cs

/-- Spec-side renderer for sibling spans, in encounter order. -/
def renderSpans (W : Int) (d : Nat) : List Span → List String
  | [] => []
  | s :: ss => renderSpan W d s ++ renderSpans W d ss

end

/-! ## Spec-modelled components not present under `src/` -/

/-- Modelled from the spec: the record shape seen by the Duplicate Detector of
spec section 4.1, whose code is not under `src/`: the Event Key (positional
fields 0 to 3 of a row, the per-occurrence identity) and the record's counter
name. -/
structure DupRec where
  key : List String
  counter_name : String
deriving Repr, DecidableEq

/-- Modelled from the spec: the Duplicate Detector of spec section 4.1, whose
code is not under `src/`.  It maintains a mapping from Event Key to the set of
counter names already observed for that key — represented here as the set of
(key, counter name) pairs already observed.  For each incoming record it
reports `true` (a duplicate occurrence; non-fatal, processing continues)
precisely when the record's counter name is already present in the set for
its Event Key, and then records the pair. -/
def dupFlags : List DupRec → List (List String × String) → List Bool
  | [], _ => []
  | dr :: rest, seen =>
    decide ((dr.key, dr.counter_name) ∈ seen) ::
      dupFlags rest ((dr.key, dr.counter_name) :: seen)

/-- Modelled from the spec: one record as seen by the Stack Reconstructor
(flat mode) of spec section 4.2, whose code is not under `src/`: Event Key,
phase, and event name. -/
structure FlatRecord where
  key : List String
  phase : String
  event_name : String
deriving Repr, DecidableEq

/-- Modelled from the spec: the per-pass state of the Stack Reconstructor
(flat mode, spec section 4.2): the stack of open event names (top first), the
last pushed and last popped Event Keys, the maximum depth reached and the
snapshot of the deepest stack.  (The lines it prints play no role in any
claim and are not modelled.) -/
structure FlatState where
  stack : List String
  lastPushed : Option (List String)
  lastPopped : Option (List String)
  maxDepth : Nat
  deepest : List String
deriving Repr, DecidableEq

/-- Modelled from the spec: the fatal structural-consistency error of the
flat mode. -/
inductive FlatErr where
  | consistency
deriving Repr, DecidableEq

/-- Modelled from the spec: after each step, if the stack length exceeds
`max_depth`, update `max_depth` and snapshot the stack. -/
def trackDepth (st : FlatState) : FlatState :=
  if st.maxDepth < st.stack.length then
    ⟨st.stack, st.lastPushed, st.lastPopped, st.stack.length, st.stack⟩
  else st

/-- Modelled from the spec: one step of the Stack Reconstructor (flat mode,
spec section 4.2).  An entry record whose Event Key differs from the last
pushed key pushes its event name; an exit record whose Event Key differs from
the last popped key must find a non-empty stack whose top equals its event
name (fatal consistency error otherwise) and pops it; records repeating the
last pushed/popped key are ignored. -/
def flatStep (st : FlatState) (r : FlatRecord) : Except FlatErr FlatState :=
  if r.phase = "entry" then
    if st.lastPushed ≠ some r.key then
      Except.ok (trackDepth ⟨r.event_name :: st.stack, some r.key,
        st.lastPopped, st.maxDepth, st.deepest⟩)
    else Except.ok st
  else
    if st.lastPopped ≠ some r.key then
      match st.stack with
      | [] => Except.error FlatErr.consistency
      | top :: rest =>
        if top = r.event_name then
          Except.ok (trackDepth ⟨rest, st.lastPushed, some r.key,
            st.maxDepth, st.deepest⟩)
        else Except.error FlatErr.consistency
    else Except.ok st

/-- Modelled from the spec: the Stack Reconstructor's single pass over the
records, aborting on the first fatal consistency error. -/
def flatRun : FlatState → List FlatRecord → Except FlatErr FlatState
  | st, [] => Except.ok st
  | st, r :: rs =>
    match flatStep st r with
    | Except.error e => Except.error e
    | Except.ok st' => flatRun st' rs

/-- Modelled from the spec: the initial flat-mode state (empty stack, no last
pushed/popped key, zero max depth). -/
def flatInit : FlatState := ⟨[], none, none, 0, []⟩

/-- A row parses completely, as a boolean. -/
def rowOK (row : Row) : Bool :=
  match readRow row with
  | Except.ok _ => true
  | Except.error _ => false

/-! ## Step lemmas for the embedding -/

theorem formatRowsF_nil (f d : Nat) (l : Option Row) :
    formatRowsF f [] d l = Except.ok ([], none, [], l) := by
  cases f <;> rfl

theorem formatRowsF_readErr {row : Row} {e : Err}
    (h : readRow row = Except.error e) (f : Nat) (rest : List Row) (d : Nat)
    (l : Option Row) :
    formatRowsF (f + 1) (row :: rest) d l = Except.error e := by
  simp only [formatRowsF, h]

theorem formatRowsF_skip {row : Row} {r : TraceRec}
    (h : readRow row = Except.ok r) (hc : ¬r.counter_name = delimCounter)
    (f : Nat) (rest : List Row) (d : Nat) (l : Option Row) :
    formatRowsF (f + 1) (row :: rest) d l = formatRowsF f rest d (some row) := by
  simp only [formatRowsF, h, hc, if_false]

theorem formatRowsF_exitStep {row : Row} {r : TraceRec}
    (h : readRow row = Except.ok r) (hc : r.counter_name = delimCounter)
    (hx : r.isExit = true) (f : Nat) (rest : List Row) (d : Nat)
    (l : Option Row) :
    formatRowsF (f + 1) (row :: rest) d l =
      Except.ok ([], some row, rest, some row) := by
  simp only [formatRowsF, h, hc, hx, if_true]

theorem formatRowsF_entryStep {row : Row} {r : TraceRec} {cl : List String}
    {x? : Option Row} {rem : List Row} {l' : Option Row} {rest : List Row}
    {f : Nat}
    (h : readRow row = Except.ok r) (hc : r.counter_name = delimCounter)
    (hx : r.isExit = false) (d : Nat) (l : Option Row)
    (hch : formatRowsF f rest (d + 1) (some row) = Except.ok (cl, x?, rem, l')) :
    formatRowsF (f + 1) (row :: rest) d l =
      match spanOwnLines r d x? l' with
      | Except.error e => Except.error e
      | Except.ok ownLines =>
        match formatRowsF f rem d l' with
        | Except.error e => Except.error e
        | Except.ok (moreLines, exitRow2, rem2, last2) =>
          Except.ok (ownLines ++ cl ++ moreLines, exitRow2, rem2, last2) := by
  simp only [formatRowsF, h, hc, hx, hch, if_true, Bool.false_eq_true, if_false]

theorem formatRowsF_entryErr {row : Row} {r : TraceRec} {e : Err}
    {rest : List Row} {f : Nat}
    (h : readRow row = Except.ok r) (hc : r.counter_name = delimCounter)
    (hx : r.isExit = false) (d : Nat) (l : Option Row)
    (hch : formatRowsF f rest (d + 1) (some row) = Except.error e) :
    formatRowsF (f + 1) (row :: rest) d l = Except.error e := by
  simp only [formatRowsF, h, hc, hx, hch, if_true, Bool.false_eq_true, if_false]

/-! ## Inversion and helper lemmas -/

theorem readRow_fields {row : Row} {r : TraceRec}
    (h : readRow row = Except.ok r) :
    getField row 3 = Except.ok r.event_name ∧
      field6 row = Except.ok r.counter_value := by
  unfold readRow at h
  split at h
  · cases h
  · split at h
    · cases h
    · split at h
      · cases h
      · split at h
        · cases h
        · injection h with h'
          subst h'
          exact ⟨by assumption, by assumption⟩

theorem rowTok_exit_inv {row : Row} {n : String} {w : Int}
    (h : rowTok row = some (Tok.exit n w)) :
    ∃ r, readRow row = Except.ok r ∧ r.isExit = true ∧
      r.counter_name = delimCounter ∧ r.event_name = n ∧ r.counter_value = w := by
  unfold rowTok at h
  split at h
  · cases h
  · rename_i r heq
    split at h
    · rename_i hcn
      split at h
      · rename_i hisx
        simp only [Option.some.injEq, Tok.exit.injEq] at h
        exact ⟨r, heq, hisx, hcn, h.1, h.2⟩
      · simp at h
    · cases h

theorem rowTok_entry_inv {row : Row} {n : String} {v : Int}
    (h : rowTok row = some (Tok.entry n v)) :
    ∃ r, readRow row = Except.ok r ∧ r.isExit = false ∧
      r.counter_name = delimCounter ∧ r.event_name = n ∧ r.counter_value = v := by
  unfold rowTok at h
  split at h
  · cases h
  · rename_i r heq
    split at h
    · rename_i hcn
      split at h
      · simp at h
      · rename_i hisx
        simp only [Option.some.injEq, Tok.entry.injEq] at h
        exact ⟨r, heq, Bool.of_not_eq_true hisx, hcn, h.1, h.2⟩
    · cases h

theorem rowTok_of_entry {row : Row} {r : TraceRec}
    (h : readRow row = Except.ok r) (hc : r.counter_name = delimCounter)
    (hx : r.isExit = false) :
    rowTok row = some (Tok.entry r.event_name r.counter_value) := by
  simp [rowTok, h, hc, hx]

theorem rowTok_of_exit {row : Row} {r : TraceRec}
    (h : readRow row = Except.ok r) (hc : r.counter_name = delimCounter)
    (hx : r.isExit = true) :
    rowTok row = some (Tok.exit r.event_name r.counter_value) := by
  simp [rowTok, h, hc, hx]

theorem rowTok_of_skip {row : Row} {r : TraceRec}
    (h : readRow row = Except.ok r) (hc : ¬r.counter_name = delimCounter) :
    rowTok row = none := by
  simp [rowTok, h, hc]

theorem spanOwnLines_close {r : TraceRec} {xrow : Row} {w : Int}
    {l' : Option Row} (h3 : getField xrow 3 = Except.ok r.event_name)
    (h6 : field6 xrow = Except.ok w) (d : Nat) :
    spanOwnLines r d (some xrow) l' =
      Except.ok (if d < MAX_PRINT_DEPTH then
        [indentStr d ++ r.event_name ++ " " ++ formatMicros (w - r.counter_value)]
      else []) := by
  simp only [spanOwnLines, h3, h6, if_true, eq_self_iff_true]
  rw [apply_ite Except.ok]

theorem spanOwnLines_mismatch {r : TraceRec} {xrow : Row} {m : String}
    {l' : Option Row} (h3 : getField xrow 3 = Except.ok m)
    (hne : ¬m = r.event_name) (d : Nat) :
    spanOwnLines r d (some xrow) l' = Except.error Err.assertionError := by
  simp only [spanOwnLines, h3, if_neg hne]

theorem spanOwnLines_open {r : TraceRec} {lr : Row} {w : Int}
    (h6 : field6 lr = Except.ok w) (d : Nat) :
    spanOwnLines r d none (some lr) =
      Except.ok (if d < MAX_PRINT_DEPTH then
        [indentStr d ++ r.event_name ++ " >=" ++ formatMicros (w - r.counter_value)]
      else []) := by
  simp only [spanOwnLines, h6]
  rw [apply_ite Except.ok]

theorem lastOf_nil (l : Option Row) : lastOf [] l = l := rfl

theorem lastOf_cons (a : Row) (rows : List Row) (l : Option Row) :
    lastOf (a :: rows) l = lastOf rows (some a) := rfl

theorem lastOf_append (l₁ l₂ : List Row) (x : Option Row) :
    lastOf (l₁ ++ l₂) x = lastOf l₂ (lastOf l₁ x) := by
  simp [lastOf, List.foldl_append]

theorem lastOf_mem {rows : List Row} {x : Option Row} {r : Row} :
    lastOf rows x = some r → r ∈ rows ∨ x = some r := by
  induction rows generalizing x with
  | nil => exact fun h => Or.inr h
  | cons a rows ih =>
    intro h
    rcases ih h with hm | he
    · exact Or.inl (List.mem_cons_of_mem _ hm)
    · cases Option.some.inj he
      exact Or.inl (List.mem_cons_self _ _)

theorem rowsOK_split {l₁ l₂ : List Row} (h : RowsOK (l₁ ++ l₂)) :
    RowsOK l₁ ∧ RowsOK l₂ :=
  ⟨fun row hm => h row (List.mem_append_left _ hm),
   fun row hm => h row (List.mem_append_right _ hm)⟩

theorem rowsOK_cons {row : Row} {rows : List Row} (h : RowsOK (row :: rows)) :
    (∃ r, readRow row = Except.ok r) ∧ RowsOK rows :=
  ⟨h row (List.mem_cons_self _ _),
   fun r hm => h r (List.mem_cons_of_mem _ hm)⟩

theorem filterMap_eq_append_cons {α β : Type} (f : α → Option β) :
    ∀ (l : List α) (A : List β) (t : β) (B : List β),
      l.filterMap f = A ++ t :: B →
      ∃ p x r, l = p ++ x :: r ∧ p.filterMap f = A ∧ f x = some t ∧
        r.filterMap f = B := by
  intro l
  induction l with
  | nil =>
    intro A t B h
    rw [List.filterMap_nil] at h
    exact absurd h.symm (List.append_ne_nil_of_right_ne_nil _ (List.cons_ne_nil _ _))
  | cons a l ih =>
    intro A t B h
    rw [List.filterMap_cons] at h
    cases hfa : f a with
    | none =>
      rw [hfa] at h
      obtain ⟨p, x, r, h1, h2, h3, h4⟩ := ih A t B h
      exact ⟨a :: p, x, r, by rw [h1]; rfl,
        by rw [List.filterMap_cons, hfa]; exact h2, h3, h4⟩
    | some b =>
      rw [hfa] at h
      cases A with
      | nil =>
        rw [List.nil_append] at h
        obtain ⟨hb, hB⟩ := List.cons.inj h
        exact ⟨[], a, l, rfl, rfl, by rw [hfa, hb], hB⟩
      | cons a' A' =>
        rw [List.cons_append] at h
        obtain ⟨hb, hrest⟩ := List.cons.inj h
        obtain ⟨p, x, r, h1, h2, h3, h4⟩ := ih A' t B hrest
        exact ⟨a :: p, x, r, by rw [h1]; rfl,
          by rw [List.filterMap_cons, hfa, hb, h2], h3, h4⟩

theorem matched_inv {ts : List Tok} (h : Matched ts) :
    ts = [] ∨ ∃ n v w inner rest,
      ts = Tok.entry n v :: inner ++ Tok.exit n w :: rest ∧
        Matched inner ∧ Matched rest := by
  cases h with
  | nil => exact Or.inl rfl
  | node n v w inner rest hi hr => exact Or.inr ⟨n, v, w, inner, rest, rfl, hi, hr⟩

theorem noexit_inv {ts : List Tok} (h : NoExit ts) :
    ts = [] ∨
    (∃ n v w inner rest, ts = Tok.entry n v :: inner ++ Tok.exit n w :: rest ∧
      Matched inner ∧ NoExit rest) ∨
    (∃ n v rest, ts = Tok.entry n v :: rest ∧ NoExit rest) := by
  cases h with
  | nil => exact Or.inl rfl
  | complete n v w inner rest hi hr =>
    exact Or.inr (Or.inl ⟨n, v, w, inner, rest, rfl, hi, hr⟩)
  | openTail n v rest hr => exact Or.inr (Or.inr ⟨n, v, rest, rfl, hr⟩)

theorem matched_noexit {ts : List Tok} (h : Matched ts) : NoExit ts := by
  induction h with
  | nil => exact NoExit.nil
  | node n v w inner rest hi _ _ ihr => exact NoExit.complete n v w inner rest hi ihr

/-! ## Properties of the span-forest builder -/

theorem buildSpansF_nil (f : Nat) : buildSpansF f [] = ([], none, []) := by
  cases f <;> rfl

theorem buildSpansF_exit (f : Nat) (n : String) (w : Int) (rest : List Tok) :
    buildSpansF (f + 1) (Tok.exit n w :: rest) = ([], some (n, w), rest) := rfl

theorem buildSpansF_entry (f : Nat) (n : String) (v : Int) (rest : List Tok) :
    buildSpansF (f + 1) (Tok.entry n v :: rest) =
      (Span.mk n v ((buildSpansF f rest).2.1.map Prod.snd) (buildSpansF f rest).1 ::
        (buildSpansF f (buildSpansF f rest).2.2).1,
       (buildSpansF f (buildSpansF f rest).2.2).2.1,
       (buildSpansF f (buildSpansF f rest).2.2).2.2) := rfl

theorem buildSpansF_suffix : ∀ (f : Nat) (ts : List Tok),
    ∃ pre, ts = pre ++ (buildSpansF f ts).2.2 := by
  intro f
  induction f with
  | zero =>
    intro ts
    cases ts with
    | nil => exact ⟨[], rfl⟩
    | cons t ts' => exact ⟨[], rfl⟩
  | succ f ih =>
    intro ts
    cases ts with
    | nil => exact ⟨[], rfl⟩
    | cons t ts' =>
      cases t with
      | exit n w => exact ⟨[Tok.exit n w], rfl⟩
      | entry n v =>
        obtain ⟨p1, hp1⟩ := ih ts'
        obtain ⟨p2, hp2⟩ := ih (buildSpansF f ts').2.2
        refine ⟨Tok.entry n v :: (p1 ++ p2), ?_⟩
        have hts' : ts' = (p1 ++ p2) ++
            (buildSpansF f (buildSpansF f ts').2.2).2.2 := by
          rw [List.append_assoc, ← hp2, ← hp1]
        rw [buildSpansF_entry]
        simp only [List.cons_append]
        exact congrArg _ hts'

theorem buildSpansF_fuel : ∀ (f : Nat) (ts : List Tok), ts.length ≤ f →
    buildSpansF f ts = buildSpansF ts.length ts := by
  intro f
  induction f using Nat.strong_induction_on with
  | _ f ih =>
    intro ts hlen
    cases ts with
    | nil => rw [buildSpansF_nil, buildSpansF_nil]
    | cons t ts' =>
      cases f with
      | zero => exact absurd hlen (by simp)
      | succ f =>
        have hts' : ts'.length ≤ f := Nat.succ_le_succ_iff.mp hlen
        cases t with
        | exit n w => rw [buildSpansF_exit]; rfl
        | entry n v =>
          have h1 : buildSpansF f ts' = buildSpansF ts'.length ts' :=
            ih f (Nat.lt_succ_self f) ts' hts'
          obtain ⟨p1, hp1⟩ := buildSpansF_suffix ts'.length ts'
          have hc22 : (buildSpansF ts'.length ts').2.2.length ≤ ts'.length := by
            conv_rhs => rw [hp1]
            simp only [List.length_append]
            omega
          have h2 : buildSpansF f (buildSpansF ts'.length ts').2.2 =
              buildSpansF (buildSpansF ts'.length ts').2.2.length
                (buildSpansF ts'.length ts').2.2 :=
            ih f (Nat.lt_succ_self f) _ (le_trans hc22 hts')
          have h3 : buildSpansF ts'.length (buildSpansF ts'.length ts').2.2 =
              buildSpansF (buildSpansF ts'.length ts').2.2.length
                (buildSpansF ts'.length ts').2.2 :=
            ih ts'.length (Nat.lt_succ_of_le hts') _ hc22
          simp only [List.length_cons]
          rw [buildSpansF_entry, buildSpansF_entry, h1, h2, h3]

theorem buildSpansF_matched_append {inner : List Tok} (hM : Matched inner) :
    ∀ (n : String) (w : Int) (rest : List Tok) (f : Nat),
      (inner ++ Tok.exit n w :: rest).length ≤ f →
      buildSpansF f (inner ++ Tok.exit n w :: rest) =
        (buildSpans inner, some (n, w), rest) := by
  induction hM with
  | nil =>
    intro n w rest f hf
    cases f with
    | zero => exact absurd hf (by simp)
    | succ f => exact buildSpansF_exit f n w rest
  | node n' v' w' inner' rest' hi hr ih1 ih2 =>
    intro n w rest f hf
    cases f with
    | zero => exact absurd hf (by simp)
    | succ f =>
      simp only [List.cons_append, List.append_assoc] at hf ⊢
      have hlen1 :
          (inner' ++ Tok.exit n' w' :: (rest' ++ Tok.exit n w :: rest)).length ≤ f := by
        simp only [List.length_cons, List.length_append] at hf ⊢
        omega
      have hlen2 : (rest' ++ Tok.exit n w :: rest).length ≤ f := by
        simp only [List.length_cons, List.length_append] at hf ⊢
        omega
      rw [buildSpansF_entry, ih1 n' w' (rest' ++ Tok.exit n w :: rest) f hlen1,
        ih2 n w rest f hlen2]
      have hnode :
          buildSpans (Tok.entry n' v' :: (inner' ++ Tok.exit n' w' :: rest')) =
            Span.mk n' v' (some w') (buildSpans inner') :: buildSpans rest' := by
        show (buildSpansF (Tok.entry n' v' :: (inner' ++ Tok.exit n' w' :: rest')).length
          (Tok.entry n' v' :: (inner' ++ Tok.exit n' w' :: rest'))).1 = _
        simp only [List.length_cons]
        rw [buildSpansF_entry,
          ih1 n' w' rest' (inner' ++ Tok.exit n' w' :: rest').length (le_refl _),
          buildSpansF_fuel (inner' ++ Tok.exit n' w' :: rest').length rest'
            (by simp only [List.length_append, List.length_cons]; omega)]
        rfl
      rw [hnode]
      rfl

theorem buildSpans_node {inner : List Tok} (hi : Matched inner) (n : String)
    (v w : Int) (rest : List Tok) :
    buildSpans (Tok.entry n v :: (inner ++ Tok.exit n w :: rest)) =
      Span.mk n v (some w) (buildSpans inner) :: buildSpans rest := by
  show (buildSpansF (Tok.entry n v :: (inner ++ Tok.exit n w :: rest)).length
    (Tok.entry n v :: (inner ++ Tok.exit n w :: rest))).1 = _
  simp only [List.length_cons]
  rw [buildSpansF_entry,
    buildSpansF_matched_append hi n w rest
      (inner ++ Tok.exit n w :: rest).length (le_refl _),
    buildSpansF_fuel (inner ++ Tok.exit n w :: rest).length rest
      (by simp only [List.length_append, List.length_cons]; omega)]
  rfl

theorem buildSpansF_noexit {ts : List Tok} (h : NoExit ts) :
    ∀ f : Nat, ts.length ≤ f → buildSpansF f ts = (buildSpans ts, none, []) := by
  induction h with
  | nil => intro f _; rw [buildSpansF_nil]; rfl
  | complete n v w inner rest hi hr ih =>
    intro f hf
    cases f with
    | zero => exact absurd hf (by simp)
    | succ f =>
      simp only [List.cons_append] at hf ⊢
      have hlen1 : (inner ++ Tok.exit n w :: rest).length ≤ f :=
        Nat.succ_le_succ_iff.mp (by simpa using hf)
      have hlen2 : rest.length ≤ f := by
        simp only [List.length_cons, List.length_append] at hlen1
        omega
      rw [buildSpansF_entry, buildSpansF_matched_append hi n w rest f hlen1,
        ih f hlen2,
        buildSpans_node hi n v w rest]
      rfl
  | openTail n v rest hr ih =>
    intro f hf
    cases f with
    | zero => exact absurd hf (by simp)
    | succ f =>
      have hrest : rest.length ≤ f := Nat.succ_le_succ_iff.mp hf
      have hopen : buildSpans (Tok.entry n v :: rest) =
          [Span.mk n v none (buildSpans rest)] := by
        show (buildSpansF (Tok.entry n v :: rest).length
          (Tok.entry n v :: rest)).1 = _
        simp only [List.length_cons]
        rw [buildSpansF_entry, ih rest.length (le_refl _)]
        simp [buildSpansF_nil]
      rw [buildSpansF_entry, ih f hrest, hopen]
      simp [buildSpansF_nil]

theorem buildSpans_open {ts : List Tok} (h : NoExit ts) (n : String) (v : Int) :
    buildSpans (Tok.entry n v :: ts) = [Span.mk n v none (buildSpans ts)] := by
  show (buildSpansF (Tok.entry n v :: ts).length (Tok.entry n v :: ts)).1 = _
  simp only [List.length_cons]
  rw [buildSpansF_entry, buildSpansF_noexit h ts.length (le_refl _)]
  simp [buildSpansF_nil]

theorem buildSpans_nil : buildSpans [] = [] := rfl

theorem renderSpans_nil (W : Int) (d : Nat) : renderSpans W d [] = [] := rfl

theorem renderSpans_cons (W : Int) (d : Nat) (s : Span) (ss : List Span) :
    renderSpans W d (s :: ss) = renderSpan W d s ++ renderSpans W d ss := rfl

theorem renderSpan_closed (W : Int) (d : Nat) (n : String) (v w : Int)
    (cs : List Span) :
    renderSpan W d (Span.mk n v (some w) cs) =
      (if d < MAX_PRINT_DEPTH then [indentStr d ++ n ++ " " ++ formatMicros (w - v)]
       else []) ++ renderSpans W (d + 1) cs := rfl

theorem renderSpan_open (W : Int) (d : Nat) (n : String) (v : Int)
    (cs : List Span) :
    renderSpan W d (Span.mk n v none cs) =
      (if d < MAX_PRINT_DEPTH then [indentStr d ++ n ++ " >=" ++ formatMicros (W - v)]
       else []) ++ renderSpans W (d + 1) cs := rfl

/-! ## Head inversions and `toks` lemmas -/

theorem matched_exit_head {n : String} {w : Int} {ts : List Tok}
    (h : Matched (Tok.exit n w :: ts)) : False := by
  rcases matched_inv h with h0 | ⟨n', v', w', inner, rest, heq, _, _⟩
  · cases h0
  · rw [List.cons_append] at heq
    exact absurd (List.cons.inj heq).1 (by simp)

theorem matched_entry_head {n : String} {v : Int} {ts : List Tok}
    (h : Matched (Tok.entry n v :: ts)) :
    ∃ inner w rest, ts = inner ++ Tok.exit n w :: rest ∧
      Matched inner ∧ Matched rest := by
  rcases matched_inv h with h0 | ⟨n', v', w', inner, rest, heq, hi, hr⟩
  · cases h0
  · rw [List.cons_append] at heq
    injection heq with h1 h2
    injection h1 with hn hv
    subst hn
    exact ⟨inner, w', rest, h2, hi, hr⟩

theorem noexit_exit_head {n : String} {w : Int} {ts : List Tok}
    (h : NoExit (Tok.exit n w :: ts)) : False := by
  rcases noexit_inv h with h0 | ⟨n', v', w', inner, rest, heq, _, _⟩ |
    ⟨n', v', rest, heq, _⟩
  · cases h0
  · rw [List.cons_append] at heq
    exact absurd (List.cons.inj heq).1 (by simp)
  · exact absurd (List.cons.inj heq).1 (by simp)

theorem noexit_entry_head {n : String} {v : Int} {ts : List Tok}
    (h : NoExit (Tok.entry n v :: ts)) :
    (∃ inner w rest, ts = inner ++ Tok.exit n w :: rest ∧
      Matched inner ∧ NoExit rest) ∨ NoExit ts := by
  rcases noexit_inv h with h0 | ⟨n', v', w', inner, rest, heq, hi, hr⟩ |
    ⟨n', v', rest, heq, hr⟩
  · cases h0
  · rw [List.cons_append] at heq
    injection heq with h1 h2
    injection h1 with hn hv
    subst hn
    exact Or.inl ⟨inner, w', rest, h2, hi, hr⟩
  · injection heq with h1 h2
    subst h2
    exact Or.inr hr

theorem toks_cons_some {row : Row} {t : Tok} (h : rowTok row = some t)
    (rows : List Row) : toks (row :: rows) = t :: toks rows := by
  simp [toks, List.filterMap_cons, h]

theorem toks_cons_none {row : Row} (h : rowTok row = none)
    (rows : List Row) : toks (row :: rows) = toks rows := by
  simp [toks, List.filterMap_cons, h]

theorem toks_append (l₁ l₂ : List Row) :
    toks (l₁ ++ l₂) = toks l₁ ++ toks l₂ := by
  simp [toks, List.filterMap_append]

/-! ## Characterization of the reconstructor's runs -/

theorem lastOf_through (p : Row) (preA : List Row) (xr1 : Row) (preB : List Row)
    (last : Option Row) :
    lastOf (p :: (preA ++ xr1 :: preB)) last = lastOf preB (some xr1) := by
  rw [lastOf_cons, lastOf_append, lastOf_cons]

theorem lastOf_some_of_some : ∀ (rows : List Row) (x : Row),
    ∃ lr, lastOf rows (some x) = some lr := by
  intro rows
  induction rows with
  | nil => exact fun x => ⟨x, rfl⟩
  | cons a rows ih => exact fun x => ih a

theorem lastVal_of_ok {lr : Row} {w : Int} (h6 : field6 lr = Except.ok w) :
    lastVal (some lr) = w := by
  simp [lastVal, h6]

theorem formatRowsF_matched_run :
    ∀ (f : Nat) (pre : List Row) (xrow : Row) (rem : List Row) (n : String)
      (w : Int) (d : Nat) (last : Option Row) (V : Int),
      (pre ++ xrow :: rem).length ≤ f → RowsOK pre → Matched (toks pre) →
      rowTok xrow = some (Tok.exit n w) →
      formatRowsF f (pre ++ xrow :: rem) d last =
        Except.ok (renderSpans V d (buildSpans (toks pre)), some xrow, rem,
          some xrow) := by
  intro f
  induction f using Nat.strong_induction_on with
  | _ f ih =>
    intro pre xrow rem n w d last V hlen hOK hM hxr
    cases pre with
    | nil =>
      rw [List.nil_append] at hlen ⊢
      cases f with
      | zero => exact absurd hlen (by simp)
      | succ f =>
        obtain ⟨r1, hr1, hx1, hc1, hn1, hv1⟩ := rowTok_exit_inv hxr
        rw [formatRowsF_exitStep hr1 hc1 hx1]
        rfl
    | cons p pre' =>
      cases f with
      | zero => exact absurd hlen (by simp)
      | succ f =>
        obtain ⟨⟨r, hr⟩, hOK'⟩ := rowsOK_cons hOK
        rw [List.cons_append] at hlen ⊢
        have hlen' : (pre' ++ xrow :: rem).length ≤ f :=
          Nat.succ_le_succ_iff.mp hlen
        by_cases hc : r.counter_name = delimCounter
        · cases hx : r.isExit with
          | true =>
            rw [toks_cons_some (rowTok_of_exit hr hc hx)] at hM
            exact (matched_exit_head hM).elim
          | false =>
            have hTok := rowTok_of_entry hr hc hx
            rw [toks_cons_some hTok] at hM
            obtain ⟨inner, w₂, rest₂, hts, hMi, hMr⟩ := matched_entry_head hM
            obtain ⟨preA, xr1, preB, hpre', hA, hx1, hB⟩ :=
              filterMap_eq_append_cons rowTok pre' inner
                (Tok.exit r.event_name w₂) rest₂ hts
            subst hpre'
            obtain ⟨hOKA, hOKB0⟩ := rowsOK_split hOK'
            obtain ⟨_, hOKB⟩ := rowsOK_cons hOKB0
            have hA' : toks preA = inner := hA
            have hMA : Matched (toks preA) := by rw [hA']; exact hMi
            have hB' : toks preB = rest₂ := hB
            have hMB : Matched (toks preB) := by rw [hB']; exact hMr
            have hsplit : (preA ++ xr1 :: preB) ++ xrow :: rem =
                preA ++ xr1 :: (preB ++ xrow :: rem) := by
              simp [List.append_assoc]
            have hlenA : (preA ++ xr1 :: (preB ++ xrow :: rem)).length ≤ f := by
              rw [← hsplit]; exact hlen'
            have hchild := ih f (Nat.lt_succ_self f) preA xr1
              (preB ++ xrow :: rem) r.event_name w₂ (d + 1) (some p) V
              hlenA hOKA hMA hx1
            have hlenB : (preB ++ xrow :: rem).length ≤ f := by
              simp only [List.length_append, List.length_cons] at hlenA ⊢
              omega
            have hcont := ih f (Nat.lt_succ_self f) preB xrow rem n w d
              (some xr1) V hlenB hOKB hMB hxr
            obtain ⟨r1, hr1, hx1b, hc1, hn1, hv1⟩ := rowTok_exit_inv hx1
            obtain ⟨h3a, h6a⟩ := readRow_fields hr1
            rw [formatRowsF_entryStep hr hc hx d last
              (by rw [hsplit]; exact hchild)]
            rw [spanOwnLines_close (by rw [h3a, hn1]) (by rw [h6a, hv1]) d]
            have htoksAll : toks (p :: (preA ++ xr1 :: preB)) =
                Tok.entry r.event_name r.counter_value ::
                  (toks preA ++ Tok.exit r.event_name w₂ :: toks preB) := by
              rw [toks_cons_some hTok, toks_append, toks_cons_some hx1]
            rw [htoksAll, buildSpans_node hMA, renderSpans_cons, renderSpan_closed]
            simp only [hcont, List.append_assoc]
        · rw [formatRowsF_skip hr hc]
          have htoks : toks (p :: pre') = toks pre' :=
            toks_cons_none (rowTok_of_skip hr hc) _
          rw [htoks] at hM
          rw [htoks]
          exact ih f (Nat.lt_succ_self f) pre' xrow rem n w d (some p) V
            hlen' hOK' hM hxr

theorem formatRowsF_noexit_run :
    ∀ (f : Nat) (rows : List Row) (d : Nat) (last : Option Row),
      rows.length ≤ f → RowsOK rows → NoExit (toks rows) →
      formatRowsF f rows d last =
        Except.ok (renderSpans (lastVal (lastOf rows last)) d
          (buildSpans (toks rows)), none, [], lastOf rows last) := by
  intro f
  induction f using Nat.strong_induction_on with
  | _ f ih =>
    intro rows d last hlen hOK hNE
    cases rows with
    | nil => rw [formatRowsF_nil]; rfl
    | cons p rows' =>
      cases f with
      | zero => exact absurd hlen (by simp)
      | succ f =>
        obtain ⟨⟨r, hr⟩, hOK'⟩ := rowsOK_cons hOK
        have hlen' : rows'.length ≤ f := Nat.succ_le_succ_iff.mp hlen
        by_cases hc : r.counter_name = delimCounter
        · cases hx : r.isExit with
          | true =>
            rw [toks_cons_some (rowTok_of_exit hr hc hx)] at hNE
            exact (noexit_exit_head hNE).elim
          | false =>
            have hTok := rowTok_of_entry hr hc hx
            rw [toks_cons_some hTok] at hNE
            rcases noexit_entry_head hNE with
              ⟨inner, w₂, rest₂, hts, hMi, hNr⟩ | hNE'
            · obtain ⟨preA, xr1, preB, hrows', hA, hx1, hB⟩ :=
                filterMap_eq_append_cons rowTok rows' inner
                  (Tok.exit r.event_name w₂) rest₂ hts
              subst hrows'
              obtain ⟨hOKA, hOKB0⟩ := rowsOK_split hOK'
              obtain ⟨_, hOKB⟩ := rowsOK_cons hOKB0
              have hA' : toks preA = inner := hA
              have hMA : Matched (toks preA) := by rw [hA']; exact hMi
              have hB' : toks preB = rest₂ := hB
              have hNB : NoExit (toks preB) := by rw [hB']; exact hNr
              rw [lastOf_through p preA xr1 preB last]
              have hchild := formatRowsF_matched_run f preA xr1 preB
                r.event_name w₂ (d + 1) (some p)
                (lastVal (lastOf preB (some xr1))) hlen' hOKA hMA hx1
              have hlenB : preB.length ≤ f := by
                simp only [List.length_append, List.length_cons] at hlen'
                omega
              have hcont := ih f (Nat.lt_succ_self f) preB d (some xr1)
                hlenB hOKB hNB
              obtain ⟨r1, hr1, hx1b, hc1, hn1, hv1⟩ := rowTok_exit_inv hx1
              obtain ⟨h3a, h6a⟩ := readRow_fields hr1
              rw [formatRowsF_entryStep hr hc hx d last hchild]
              rw [spanOwnLines_close (by rw [h3a, hn1]) (by rw [h6a, hv1]) d]
              have htoksAll : toks (p :: (preA ++ xr1 :: preB)) =
                  Tok.entry r.event_name r.counter_value ::
                    (toks preA ++ Tok.exit r.event_name w₂ :: toks preB) := by
                rw [toks_cons_some hTok, toks_append, toks_cons_some hx1]
              rw [htoksAll, buildSpans_node hMA, renderSpans_cons,
                renderSpan_closed]
              simp only [hcont, List.append_assoc]
            · obtain ⟨lr, hlast⟩ := lastOf_some_of_some rows' p
              have hlrOK : ∃ rr, readRow lr = Except.ok rr := by
                rcases lastOf_mem hlast with hm | he
                · exact hOK' lr hm
                · cases Option.some.inj he
                  exact ⟨r, hr⟩
              obtain ⟨rr, hrr⟩ := hlrOK
              obtain ⟨_, h6lr⟩ := readRow_fields hrr
              have hchild := ih f (Nat.lt_succ_self f) rows' (d + 1) (some p)
                hlen' hOK' hNE'
              rw [hlast] at hchild
              rw [lastOf_cons, hlast]
              rw [formatRowsF_entryStep hr hc hx d last hchild]
              rw [spanOwnLines_open h6lr d]
              rw [toks_cons_some hTok, buildSpans_open hNE', renderSpans_cons,
                renderSpan_open, renderSpans_nil, formatRowsF_nil,
                lastVal_of_ok h6lr]
        · rw [formatRowsF_skip hr hc]
          have htoks : toks (p :: rows') = toks rows' :=
            toks_cons_none (rowTok_of_skip hr hc) _
          rw [htoks, lastOf_cons]
          exact ih f (Nat.lt_succ_self f) rows' d (some p) hlen' hOK' (by
            rw [htoks] at hNE
            exact hNE)

theorem spanOwnLines_deep {r : TraceRec} {d : Nat} {x? l' : Option Row}
    {own : List String} (hd : ¬d < MAX_PRINT_DEPTH)
    (h : spanOwnLines r d x? l' = Except.ok own) : own = [] := by
  unfold spanOwnLines at h
  simp only [if_neg hd] at h
  repeat' split at h
  all_goals cases h <;> rfl

theorem formatRowsF_deep_no_lines :
    ∀ (f : Nat) (rows : List Row) (d : Nat) (last : Option Row)
      (lines : List String) (x? : Option Row) (rem : List Row)
      (l' : Option Row), MAX_PRINT_DEPTH ≤ d →
      formatRowsF f rows d last = Except.ok (lines, x?, rem, l') →
      lines = [] := by
  intro f
  induction f using Nat.strong_induction_on with
  | _ f ih =>
    intro rows d last lines x? rem l' hd hrun
    have hnd : ¬d < MAX_PRINT_DEPTH := by omega
    cases rows with
    | nil =>
      rw [formatRowsF_nil] at hrun
      cases hrun
      rfl
    | cons p rows' =>
      cases f with
      | zero => cases hrun
      | succ f =>
        cases hr : readRow p with
        | error e =>
          rw [formatRowsF_readErr hr] at hrun
          cases hrun
        | ok r =>
          by_cases hc : r.counter_name = delimCounter
          · cases hx : r.isExit with
            | true =>
              rw [formatRowsF_exitStep hr hc hx] at hrun
              cases hrun
              rfl
            | false =>
              cases hch : formatRowsF f rows' (d + 1) (some p) with
              | error e =>
                rw [formatRowsF_entryErr hr hc hx d last hch] at hrun
                cases hrun
              | ok res =>
                obtain ⟨cl, x1, rem1, l1⟩ := res
                rw [formatRowsF_entryStep hr hc hx d last hch] at hrun
                have hcl : cl = [] :=
                  ih f (Nat.lt_succ_self f) rows' (d + 1) (some p) cl x1
                    rem1 l1 (Nat.le_succ_of_le hd) hch
                split at hrun
                · cases hrun
                · rename_i own hso
                  split at hrun
                  · cases hrun
                  · rename_i ml x2 rem2 l2 hcont
                    have hml : ml = [] :=
                      ih f (Nat.lt_succ_self f) rem1 d l1 ml x2 rem2 l2 hd
                        hcont
                    have hown : own = [] := spanOwnLines_deep hnd hso
                    cases hrun
                    rw [hown, hcl, hml]
                    rfl
          · rw [formatRowsF_skip hr hc] at hrun
            exact ih f (Nat.lt_succ_self f) rows' d (some p) lines x? rem l'
              hd hrun

theorem formatRowsF_error_prop :
    ∀ (f : Nat) (pre suf : List Row) (d : Nat) (last : Option Row) (e : Err),
      (pre ++ suf).length ≤ f → RowsOK pre → NoExit (toks pre) →
      (∀ (g : Nat) (d' : Nat) (l' : Option Row), suf.length ≤ g →
        formatRowsF g suf d' l' = Except.error e) →
      formatRowsF f (pre ++ suf) d last = Except.error e := by
  intro f
  induction f using Nat.strong_induction_on with
  | _ f ih =>
    intro pre suf d last e hlen hOK hNE herr
    cases pre with
    | nil =>
      rw [List.nil_append] at hlen ⊢
      exact herr f d last hlen
    | cons p pre' =>
      cases f with
      | zero => exact absurd hlen (by simp)
      | succ f =>
        obtain ⟨⟨r, hr⟩, hOK'⟩ := rowsOK_cons hOK
        rw [List.cons_append] at hlen ⊢
        have hlen' : (pre' ++ suf).length ≤ f := Nat.succ_le_succ_iff.mp hlen
        by_cases hc : r.counter_name = delimCounter
        · cases hx : r.isExit with
          | true =>
            rw [toks_cons_some (rowTok_of_exit hr hc hx)] at hNE
            exact (noexit_exit_head hNE).elim
          | false =>
            have hTok := rowTok_of_entry hr hc hx
            rw [toks_cons_some hTok] at hNE
            rcases noexit_entry_head hNE with
              ⟨inner, w₂, rest₂, hts, hMi, hNr⟩ | hNE'
            · obtain ⟨preA, xr1, preB, hpre', hA, hx1, hB⟩ :=
                filterMap_eq_append_cons rowTok pre' inner
                  (Tok.exit r.event_name w₂) rest₂ hts
              subst hpre'
              obtain ⟨hOKA, hOKB0⟩ := rowsOK_split hOK'
              obtain ⟨_, hOKB⟩ := rowsOK_cons hOKB0
              have hA' : toks preA = inner := hA
              have hMA : Matched (toks preA) := by rw [hA']; exact hMi
              have hB' : toks preB = rest₂ := hB
              have hNB : NoExit (toks preB) := by rw [hB']; exact hNr
              have hsplit : (preA ++ xr1 :: preB) ++ suf =
                  preA ++ xr1 :: (preB ++ suf) := by
                simp [List.append_assoc]
              have hlenA : (preA ++ xr1 :: (preB ++ suf)).length ≤ f := by
                rw [← hsplit]; exact hlen'
              have hchild := formatRowsF_matched_run f preA xr1 (preB ++ suf)
                r.event_name w₂ (d + 1) (some p) 0 hlenA hOKA hMA hx1
              have hlenB : (preB ++ suf).length ≤ f := by
                simp only [List.length_append, List.length_cons] at hlenA ⊢
                omega
              have hcont := ih f (Nat.lt_succ_self f) preB suf d (some xr1) e
                hlenB hOKB hNB herr
              obtain ⟨r1, hr1, hx1b, hc1, hn1, hv1⟩ := rowTok_exit_inv hx1
              obtain ⟨h3a, h6a⟩ := readRow_fields hr1
              rw [formatRowsF_entryStep hr hc hx d last
                (by rw [hsplit]; exact hchild)]
              rw [spanOwnLines_close (by rw [h3a, hn1]) (by rw [h6a, hv1]) d]
              simp only [hcont]
            · have hchild := ih f (Nat.lt_succ_self f) pre' suf (d + 1)
                (some p) e hlen' hOK' hNE' herr
              exact formatRowsF_entryErr hr hc hx d last hchild
        · rw [formatRowsF_skip hr hc]
          have htoks : toks (p :: pre') = toks pre' :=
            toks_cons_none (rowTok_of_skip hr hc) _
          rw [htoks] at hNE
          exact ih f (Nat.lt_succ_self f) pre' suf d (some p) e hlen' hOK'
            hNE herr

theorem dupFlags_flag_true :
    ∀ (s : List DupRec) (seen : List (List String × String)) (j : Nat)
      (rj : DupRec), s.get? j = some rj →
      ((rj.key, rj.counter_name) ∈ seen ∨
        ∃ i ri, i < j ∧ s.get? i = some ri ∧ ri.key = rj.key ∧
          ri.counter_name = rj.counter_name) →
      (dupFlags s seen).get? j = some true := by
  intro s
  induction s with
  | nil =>
    intro seen j rj hj _
    cases hj
  | cons a s ih =>
    intro seen j rj hj hdup
    cases j with
    | zero =>
      cases Option.some.inj hj
      rcases hdup with hmem | ⟨i, ri, hi, _, _, _⟩
      · show some (decide ((a.key, a.counter_name) ∈ seen)) = some true
        rw [decide_eq_true hmem]
      · exact absurd hi (Nat.not_lt_zero i)
    | succ j =>
      show (dupFlags s ((a.key, a.counter_name) :: seen)).get? j = some true
      apply ih _ j rj hj
      rcases hdup with hmem | ⟨i, ri, hi, hgi, hk, hcn⟩
      · exact Or.inl (List.mem_cons_of_mem _ hmem)
      · cases i with
        | zero =>
          cases Option.some.inj hgi
          rw [← hk, ← hcn]
          exact Or.inl (List.mem_cons_self _ _)
        | succ i =>
          exact Or.inr ⟨i, ri, by omega, hgi, hk, hcn⟩

theorem trackDepth_stack (st : FlatState) :
    (trackDepth st).stack = st.stack ∧
      (trackDepth st).lastPopped = st.lastPopped := by
  unfold trackDepth
  split <;> exact ⟨rfl, rfl⟩

/-! ## Helpers for concrete witnesses -/

theorem rowsOK_of_all {rows : List Row} (h : rows.all rowOK = true) :
    RowsOK rows := by
  intro row hm
  have hrow := List.all_eq_true.mp h row hm
  unfold rowOK at hrow
  split at hrow
  · exact ⟨_, by assumption⟩
  · cases hrow

theorem rowsOK_nil : RowsOK [] := by
  intro row hm
  cases hm

/-- `indentStr d` is exactly `2 * d` space characters. -/
theorem indentStr_two_spaces : ∀ d : Nat,
    indentStr d = String.mk (List.replicate (2 * d) ' ') := by
  intro d
  induction d with
  | zero => rfl
  | succ d ih =>
    show "  " ++ indentStr d = _
    rw [ih]
    rfl

/-! ## Claims -/

/-- Claim C1: for a span whose entry record (on the delimiter counter) is
processed but whose matching exit is never found before the input is
exhausted — i.e. the tokens following its entry form a `NoExit` sequence —
the rendered line (when its depth is below the maximum print depth) is the
event name followed by " >=" and the value (counter value of the very last
row read anywhere in the input, of any counter, minus this entry's counter
value) divided by 1,000,000, and the call completes by exhausting the
input. -/
theorem c1_open_span_lower_bound (rows : List Row) (n : String) (v : Int)
    (rest' : List Tok) (d : Nat) (last : Option Row) (lr : Row) (w : Int)
    (hOK : RowsOK rows) (htoks : toks rows = Tok.entry n v :: rest')
    (hNE : NoExit rest') (hlast : lastOf rows last = some lr)
    (h6 : field6 lr = Except.ok w) (hd : d < MAX_PRINT_DEPTH) :
    ∃ tail l₂, formatRows rows d last =
      Except.ok ((indentStr d ++ n ++ " >=" ++ formatMicros (w - v)) :: tail,
        none, [], l₂) := by
  have hNE2 : NoExit (toks rows) := by
    rw [htoks]
    exact NoExit.openTail n v rest' hNE
  have hrun := formatRowsF_noexit_run rows.length rows d last (le_refl _)
    hOK hNE2
  rw [htoks, buildSpans_open hNE, renderSpans_cons, renderSpan_open,
    renderSpans_nil, hlast, lastVal_of_ok h6, if_pos hd] at hrun
  simp only [List.singleton_append, List.cons_append, List.append_nil] at hrun
  exact ⟨_, _, hrun⟩

/-- Claim C1 witness: an entry at counter value 1,000,000 with no matching
exit, followed by a final record of another counter at value 4,200,000,
renders as `eventname >=3.2`. -/
theorem c1_open_span_lower_bound_witness :
    ∃ tail l₂,
      formatRows
        [["t1", "u", "entry", "eventname", "Frontend.WallClockMicroseconds",
            "u", "1000000"],
         ["t2", "u", "entry", "z", "OtherCounter", "u", "4200000"]] 0 none =
      Except.ok (("eventname >=3.2" :: tail : List String), none, [], l₂) := by
  have h := c1_open_span_lower_bound
    [["t1", "u", "entry", "eventname", "Frontend.WallClockMicroseconds",
        "u", "1000000"],
     ["t2", "u", "entry", "z", "OtherCounter", "u", "4200000"]]
    "eventname" 1000000 [] 0 none
    ["t2", "u", "entry", "z", "OtherCounter", "u", "4200000"] 4200000
    (rowsOK_of_all (by decide)) (by decide) NoExit.nil rfl rfl (by decide)
  rw [show (indentStr 0 ++ "eventname" ++ " >=" ++
    formatMicros ((4200000 : Int) - 1000000)) = "eventname >=3.2" from rfl] at h
  exact h

/-- Claim C4: for a span whose entry and matching exit records (same event
name, delimiter counter) are both found — tokens after the entry are a
`Matched` block closed by the matching exit — the rendered line (when its
depth is below the maximum print depth) is the event name, a space, and the
duration (exit counter value minus entry counter value) divided by
1,000,000. -/
theorem c4_closed_span_duration (rows : List Row) (n : String) (v w : Int)
    (inner rest' : List Tok) (d : Nat) (last : Option Row)
    (hOK : RowsOK rows)
    (htoks : toks rows = Tok.entry n v :: (inner ++ Tok.exit n w :: rest'))
    (hMi : Matched inner) (hNE : NoExit rest') (hd : d < MAX_PRINT_DEPTH) :
    ∃ tail l₂, formatRows rows d last =
      Except.ok ((indentStr d ++ n ++ " " ++ formatMicros (w - v)) :: tail,
        none, [], l₂) := by
  have hNE2 : NoExit (toks rows) := by
    rw [htoks]
    have hc := NoExit.complete n v w inner rest' hMi hNE
    rwa [List.cons_append] at hc
  have hrun := formatRowsF_noexit_run rows.length rows d last (le_refl _)
    hOK hNE2
  rw [htoks, buildSpans_node hMi, renderSpans_cons, renderSpan_closed,
    if_pos hd] at hrun
  simp only [List.singleton_append, List.cons_append, List.append_assoc]
    at hrun
  exact ⟨_, _, hrun⟩

/-- Claim C4 witness: entry counter value 1,000,000 with matching exit
counter value 3,500,000 renders duration exactly `2.5`, as
`eventname 2.5`. -/
theorem c4_closed_span_duration_witness :
    ∃ tail l₂,
      formatRows
        [["t1", "u", "entry", "eventname", "Frontend.WallClockMicroseconds",
            "u", "1000000"],
         ["t2", "u", "exit", "eventname", "Frontend.WallClockMicroseconds",
            "u", "3500000"]] 0 none =
      Except.ok (("eventname 2.5" :: tail : List String), none, [], l₂) := by
  have h := c4_closed_span_duration
    [["t1", "u", "entry", "eventname", "Frontend.WallClockMicroseconds",
        "u", "1000000"],
     ["t2", "u", "exit", "eventname", "Frontend.WallClockMicroseconds",
        "u", "3500000"]]
    "eventname" 1000000 3500000 [] [] 0 none
    (rowsOK_of_all (by decide)) (by decide) Matched.nil NoExit.nil (by decide)
  rw [show (indentStr 0 ++ "eventname" ++ " " ++
    formatMicros ((3500000 : Int) - 1000000)) = "eventname 2.5" from rfl] at h
  exact h

/-- Claim C2 counterexample: with `MAX_PRINT_DEPTH = 2`, a nest
A(depth 0) / B(1) / C(2) / D(3), all correctly closed, renders only the lines
of A and B; span C (depth 2 ≥ MAX_PRINT_DEPTH) has no rendered line — and,
contrary to the claim, its descendant D's rendered line
(`indentStr 3 ++ "D" ++ " " ++ formatMicros 1000000`) is NOT present in the
output either. -/
theorem c2_depth_guard_counterexample :
    formatRows
      [["t1", "u", "entry", "A", "Frontend.WallClockMicroseconds", "u", "0"],
       ["t2", "u", "entry", "B", "Frontend.WallClockMicroseconds", "u", "1000000"],
       ["t3", "u", "entry", "C", "Frontend.WallClockMicroseconds", "u", "2000000"],
       ["t4", "u", "entry", "D", "Frontend.WallClockMicroseconds", "u", "3000000"],
       ["t5", "u", "exit", "D", "Frontend.WallClockMicroseconds", "u", "4000000"],
       ["t6", "u", "exit", "C", "Frontend.WallClockMicroseconds", "u", "5000000"],
       ["t7", "u", "exit", "B", "Frontend.WallClockMicroseconds", "u", "6000000"],
       ["t8", "u", "exit", "A", "Frontend.WallClockMicroseconds", "u", "7000000"]]
      0 none =
      Except.ok ((["A 7.0", "  B 5.0"] : List String), none, [],
        some ["t8", "u", "exit", "A", "Frontend.WallClockMicroseconds", "u",
          "7000000"]) ∧
    (indentStr 3 ++ "D" ++ " " ++ formatMicros ((4000000 : Int) - 3000000)) ∉
      (["A 7.0", "  B 5.0"] : List String) := by
  constructor
  · rfl
  · decide

/-- Claim C2 (amended): a span at nesting depth ≥ `MAX_PRINT_DEPTH`
contributes no rendered line, and neither do its descendant spans — they are
at depths ≥ `MAX_PRINT_DEPTH` themselves, so a reconstruction call at depth
≥ `MAX_PRINT_DEPTH` still succeeds (descendants are reconstructed, exits
matched, durations computed) but produces no lines at all. -/
theorem c2_depth_guard_amended (rows : List Row) (d : Nat) (last : Option Row)
    (lines : List String) (x? : Option Row) (rem : List Row) (l' : Option Row)
    (hd : MAX_PRINT_DEPTH ≤ d)
    (hrun : formatRows rows d last = Except.ok (lines, x?, rem, l')) :
    lines = [] :=
  formatRowsF_deep_no_lines rows.length rows d last lines x? rem l' hd hrun

/-- Claim C2 (amended) witness: a correctly closed span processed at depth 2
(= `MAX_PRINT_DEPTH`) is fully reconstructed (the call returns successfully,
exhausting input) but yields no lines. -/
theorem c2_depth_guard_amended_witness :
    ([] : List String) = [] :=
  c2_depth_guard_amended
    [["t1", "u", "entry", "E", "Frontend.WallClockMicroseconds", "u", "10"],
     ["t2", "u", "exit", "E", "Frontend.WallClockMicroseconds", "u", "20"]]
    2 none [] none []
    (some ["t2", "u", "exit", "E", "Frontend.WallClockMicroseconds", "u", "20"])
    (by decide) rfl

/-- Claim C3: an exit record on the delimiter counter that terminates a
recursive call opened by an entry record naming a different event (the
entry's body being a completed `Matched` block, e.g. empty as in the spec's
"exit naming B immediately following an entry naming A") aborts processing
with the fatal consistency error — in both reconstruction modes: the
recursive Span Reconstructor of the source (an `AssertionError` from
`assert(exit_row[3] == event_name)`), and the flat Stack Reconstructor
(modelled from the spec; its code is not under `src/`), where the exit's
event name differs from the name at the top of the stack. -/
theorem c3_mismatched_exit_fatal :
    (∀ (pre : List Row) (erow : Row) (mid : List Row) (xrow : Row)
       (rest : List Row) (nA nB : String) (v w : Int) (d : Nat)
       (last : Option Row),
       RowsOK pre → NoExit (toks pre) → rowTok erow = some (Tok.entry nA v) →
       RowsOK mid → Matched (toks mid) → rowTok xrow = some (Tok.exit nB w) →
       ¬nB = nA →
       formatRows (pre ++ erow :: (mid ++ xrow :: rest)) d last =
         Except.error Err.assertionError) ∧
    (∀ (st : FlatState) (kA kB : List String) (nA nB : String)
       (rs : List FlatRecord),
       st.lastPushed ≠ some kA → st.lastPopped ≠ some kB → ¬nA = nB →
       flatRun st
         (FlatRecord.mk kA "entry" nA :: FlatRecord.mk kB "exit" nB :: rs) =
         Except.error FlatErr.consistency) := by
  constructor
  · intro pre erow mid xrow rest nA nB v w d last hOKp hNEp hetok hOKm hMm
      hxtok hne
    apply formatRowsF_error_prop
      ((pre ++ erow :: (mid ++ xrow :: rest)).length) pre
      (erow :: (mid ++ xrow :: rest)) d last Err.assertionError (le_refl _)
      hOKp hNEp
    intro g d' l' hg
    cases g with
    | zero => simp at hg
    | succ g =>
      obtain ⟨r, hr, hxf, hcf, hnf, hvf⟩ := rowTok_entry_inv hetok
      have hgm : (mid ++ xrow :: rest).length ≤ g := by
        simp only [List.length_cons] at hg
        omega
      have hchild := formatRowsF_matched_run g mid xrow rest nB w (d' + 1)
        (some erow) 0 hgm hOKm hMm hxtok
      rw [formatRowsF_entryStep hr hcf hxf d' l' hchild]
      rw [spanOwnLines_mismatch
        (by rw [(readRow_fields (rowTok_exit_inv hxtok).choose_spec.1).1,
          (rowTok_exit_inv hxtok).choose_spec.2.2.2.1])
        (by rw [hnf]; exact hne) d']
  · intro st kA kB nA nB rs hpush hpop hne
    have h1 : flatStep st (FlatRecord.mk kA "entry" nA) =
        Except.ok (trackDepth (FlatState.mk (nA :: st.stack) (some kA)
          st.lastPopped st.maxDepth st.deepest)) := by
      unfold flatStep
      rw [if_pos rfl, if_pos hpush]
    obtain ⟨hstk, hpop1⟩ := trackDepth_stack (FlatState.mk (nA :: st.stack)
      (some kA) st.lastPopped st.maxDepth st.deepest)
    have h2 : flatStep (trackDepth (FlatState.mk (nA :: st.stack) (some kA)
        st.lastPopped st.maxDepth st.deepest)) (FlatRecord.mk kB "exit" nB) =
        Except.error FlatErr.consistency := by
      unfold flatStep
      rw [if_neg (show ¬("exit" : String) = "entry" by decide)]
      rw [hpop1]
      rw [if_pos hpop]
      simp only [hstk]
      rw [if_neg hne]
    simp only [flatRun, h1, h2]

/-- Claim C3 witness: an exit naming "B" immediately following an entry
naming "A" aborts with the fatal consistency error in both modes. -/
theorem c3_mismatched_exit_fatal_witness :
    formatRows
      [["t1", "u", "entry", "A", "Frontend.WallClockMicroseconds", "u", "0"],
       ["t2", "u", "exit", "B", "Frontend.WallClockMicroseconds", "u", "10"]]
      0 none = Except.error Err.assertionError ∧
    flatRun flatInit
      [FlatRecord.mk ["t1"] "entry" "A", FlatRecord.mk ["t2"] "exit" "B"] =
      Except.error FlatErr.consistency := by
  constructor
  · exact c3_mismatched_exit_fatal.1 []
      ["t1", "u", "entry", "A", "Frontend.WallClockMicroseconds", "u", "0"] []
      ["t2", "u", "exit", "B", "Frontend.WallClockMicroseconds", "u", "10"] []
      "A" "B" 0 10 0 none rowsOK_nil NoExit.nil rfl rowsOK_nil Matched.nil
      rfl (by decide)
  · exact c3_mismatched_exit_fatal.2 flatInit ["t1"] ["t2"] "A" "B" []
      (by decide) (by decide) (by decide)

/-- Claim C5: for every well-formed input (every entry on the delimiter
counter has a matching, correctly nested exit — `Matched` tokens), the
top-level call returns `none` as its terminating exit, completing by input
exhaustion; and if the top-level call instead returns a real exit row, the
program aborts on `assert(exit_row is None)`. -/
theorem c5_wellformed_top_level :
    (∀ rows : List Row, RowsOK rows → Matched (toks rows) →
      ∃ lines l', formatRows rows 0 none =
        Except.ok (lines, none, [], l')) ∧
    (∀ (files : List String) (header : Row) (rows : List Row)
       (lines : List String) (xrow : Row) (rem : List Row) (l' : Option Row),
       files.length = 1 →
       formatRows rows 0 none = Except.ok (lines, some xrow, rem, l') →
       runProgram files (header :: rows) =
         Except.error ProgErr.topLevelExitAssert) := by
  constructor
  · intro rows hOK hM
    exact ⟨_, _, formatRowsF_noexit_run rows.length rows 0 none (le_refl _)
      hOK (matched_noexit hM)⟩
  · intro files header rows lines xrow rem l' hfiles hrun
    unfold runProgram
    rw [if_neg (by omega)]
    show (match formatRows rows 0 none with
      | Except.error e => Except.error (ProgErr.rowError e)
      | Except.ok (lines, exitRow?, _, _) =>
        match exitRow? with
        | some _ => Except.error ProgErr.topLevelExitAssert
        | none => Except.ok lines) = _
    rw [hrun]

/-- Claim C5 witness: a well-formed input returns `none` as terminating exit;
an input whose top-level call returns a real exit row makes the program
abort. -/
theorem c5_wellformed_top_level_witness :
    (∃ lines l', formatRows
      [["t1", "u", "entry", "A", "Frontend.WallClockMicroseconds", "u", "0"],
       ["t2", "u", "exit", "A", "Frontend.WallClockMicroseconds", "u", "10"]]
      0 none = Except.ok (lines, none, [], l')) ∧
    runProgram ["f"]
      [["hdr"],
       ["t1", "u", "exit", "B", "Frontend.WallClockMicroseconds", "u", "5"]] =
      Except.error ProgErr.topLevelExitAssert := by
  constructor
  · exact c5_wellformed_top_level.1
      [["t1", "u", "entry", "A", "Frontend.WallClockMicroseconds", "u", "0"],
       ["t2", "u", "exit", "A", "Frontend.WallClockMicroseconds", "u", "10"]]
      (rowsOK_of_all (by decide))
      (by
        rw [show toks
          [["t1", "u", "entry", "A", "Frontend.WallClockMicroseconds", "u", "0"],
           ["t2", "u", "exit", "A", "Frontend.WallClockMicroseconds", "u", "10"]] =
          Tok.entry "A" 0 :: ([] ++ Tok.exit "A" 10 :: []) from rfl]
        exact Matched.node "A" 0 10 [] [] Matched.nil Matched.nil)
  · exact c5_wellformed_top_level.2 ["f"] ["hdr"]
      [["t1", "u", "exit", "B", "Frontend.WallClockMicroseconds", "u", "5"]]
      [] ["t1", "u", "exit", "B", "Frontend.WallClockMicroseconds", "u", "5"]
      [] (some ["t1", "u", "exit", "B", "Frontend.WallClockMicroseconds", "u",
        "5"]) rfl rfl

/-- Claim C6: the rendered output refines the spec-side renderer: on inputs
with no unmatched exit, the reconstructor's lines are exactly
`renderSpans W 0` of the span forest built from the delimiter tokens — and
`renderSpans`/`renderSpan` emit, for each span at depth `d`, its own line
first (prefixed by `indentStr d`) followed by its children's lines at
`d + 1`, with siblings in encounter order; moreover `indentStr d` is exactly
two spaces times `d`. -/
theorem c6_rendering_order (rows : List Row) (hOK : RowsOK rows)
    (hNE : NoExit (toks rows)) :
    (formatRows rows 0 none =
      Except.ok (renderSpans (lastVal (lastOf rows none)) 0
        (buildSpans (toks rows)), none, [], lastOf rows none)) ∧
    (∀ (W : Int) (d : Nat) (n : String) (v : Int) (stop? : Option Int)
       (cs : List Span) (ss : List Span),
       renderSpans W d (Span.mk n v stop? cs :: ss) =
         renderSpan W d (Span.mk n v stop? cs) ++ renderSpans W d ss ∧
       renderSpan W d (Span.mk n v stop? cs) =
         (if d < MAX_PRINT_DEPTH then
            [indentStr d ++ n ++
              (match stop? with
               | some w => " " ++ formatMicros (w - v)
               | none => " >=" ++ formatMicros (W - v))]
          else []) ++ renderSpans W (d + 1) cs) ∧
    (∀ d : Nat, indentStr d = String.mk (List.replicate (2 * d) ' ')) := by
  refine ⟨formatRowsF_noexit_run rows.length rows 0 none (le_refl _) hOK hNE,
    ?_, indentStr_two_spaces⟩
  intro W d n v stop? cs ss
  refine ⟨renderSpans_cons W d _ ss, ?_⟩
  cases stop? with
  | some w =>
    rw [renderSpan_closed]
    simp [String.append_assoc]
  | none =>
    rw [renderSpan_open]
    simp [String.append_assoc]

/-- Claim C6 witness: on a two-level nest the output equals the spec-side
rendering of the reconstructed span forest. -/
theorem c6_rendering_order_witness :
    formatRows
      [["t1", "u", "entry", "A", "Frontend.WallClockMicroseconds", "u", "0"],
       ["t2", "u", "entry", "B", "Frontend.WallClockMicroseconds", "u", "1000000"],
       ["t3", "u", "exit", "B", "Frontend.WallClockMicroseconds", "u", "2000000"],
       ["t4", "u", "exit", "A", "Frontend.WallClockMicroseconds", "u", "3000000"]]
      0 none =
      Except.ok (renderSpans
        (lastVal (lastOf
          [["t1", "u", "entry", "A", "Frontend.WallClockMicroseconds", "u", "0"],
           ["t2", "u", "entry", "B", "Frontend.WallClockMicroseconds", "u", "1000000"],
           ["t3", "u", "exit", "B", "Frontend.WallClockMicroseconds", "u", "2000000"],
           ["t4", "u", "exit", "A", "Frontend.WallClockMicroseconds", "u", "3000000"]]
          none)) 0
        (buildSpans (toks
          [["t1", "u", "entry", "A", "Frontend.WallClockMicroseconds", "u", "0"],
           ["t2", "u", "entry", "B", "Frontend.WallClockMicroseconds", "u", "1000000"],
           ["t3", "u", "exit", "B", "Frontend.WallClockMicroseconds", "u", "2000000"],
           ["t4", "u", "exit", "A", "Frontend.WallClockMicroseconds", "u", "3000000"]])),
        none, [],
        lastOf
          [["t1", "u", "entry", "A", "Frontend.WallClockMicroseconds", "u", "0"],
           ["t2", "u", "entry", "B", "Frontend.WallClockMicroseconds", "u", "1000000"],
           ["t3", "u", "exit", "B", "Frontend.WallClockMicroseconds", "u", "2000000"],
           ["t4", "u", "exit", "A", "Frontend.WallClockMicroseconds", "u", "3000000"]]
          none) :=
  (c6_rendering_order
    [["t1", "u", "entry", "A", "Frontend.WallClockMicroseconds", "u", "0"],
     ["t2", "u", "entry", "B", "Frontend.WallClockMicroseconds", "u", "1000000"],
     ["t3", "u", "exit", "B", "Frontend.WallClockMicroseconds", "u", "2000000"],
     ["t4", "u", "exit", "A", "Frontend.WallClockMicroseconds", "u", "3000000"]]
    (rowsOK_of_all (by decide))
    (by
      rw [show toks
        [["t1", "u", "entry", "A", "Frontend.WallClockMicroseconds", "u", "0"],
         ["t2", "u", "entry", "B", "Frontend.WallClockMicroseconds", "u", "1000000"],
         ["t3", "u", "exit", "B", "Frontend.WallClockMicroseconds", "u", "2000000"],
         ["t4", "u", "exit", "A", "Frontend.WallClockMicroseconds", "u", "3000000"]] =
        Tok.entry "A" 0 ::
          ((Tok.entry "B" 1000000 :: ([] ++ Tok.exit "B" 2000000 :: [])) ++
            Tok.exit "A" 3000000 :: []) from rfl]
      exact NoExit.complete "A" 0 3000000
        (Tok.entry "B" 1000000 :: ([] ++ Tok.exit "B" 2000000 :: [])) []
        (Matched.node "B" 1000000 2000000 [] [] Matched.nil Matched.nil)
        NoExit.nil)).1

/-- Claim C7: when the number of files matching the glob pattern is not
exactly one, the program aborts with the fatal file-count error before
reading any record (the result does not depend on the file's rows at all),
and the message states the configured directory and the actual count
found. -/
theorem c7_file_count_fatal (files : List String) (h : files.length ≠ 1) :
    (∀ fileRows : List Row, runProgram files fileRows =
      Except.error (ProgErr.fileCount (expectedFileMsg files.length))) ∧
    (∃ a b : String, expectedFileMsg files.length =
      a ++ STATS_DIR ++ b ++ toString files.length) := by
  constructor
  · intro fileRows
    unfold runProgram
    rw [if_pos h]
  · exact ⟨"Error: Expected exactly 1 trace-*.csv file in ", ", found ", rfl⟩

/-- Claim C7 witness: with two matching files (or zero), the program aborts
with the file-count error whatever the rows are, naming directory and
count. -/
theorem c7_file_count_fatal_witness :
    runProgram ["a", "b"] [["hdr"], ["row"]] =
      Except.error (ProgErr.fileCount (expectedFileMsg 2)) ∧
    runProgram [] [["hdr"]] =
      Except.error (ProgErr.fileCount (expectedFileMsg 0)) :=
  ⟨(c7_file_count_fatal ["a", "b"] (by decide)).1 [["hdr"], ["row"]],
   (c7_file_count_fatal [] (by decide)).1 [["hdr"]]⟩

/-- Claim C8 (Duplicate Detector, modelled from the spec; its code is not
under `src/`): whenever a record arrives whose Event Key and counter name
were both already carried by an earlier record of the stream, the detector
flags that later record as a duplicate (non-fatally — it merely produces a
flag, processing continues and every record gets a flag), regardless of what
other records appear elsewhere in the stream. -/
theorem c8_duplicate_detector (s : List DupRec) (i j : Nat) (ri rj : DupRec)
    (hij : i < j) (hi : s.get? i = some ri) (hj : s.get? j = some rj)
    (hk : ri.key = rj.key) (hcn : ri.counter_name = rj.counter_name) :
    (dupFlags s []).get? j = some true :=
  dupFlags_flag_true s [] j rj hj (Or.inr ⟨i, ri, hij, hi, hk, hcn⟩)

/-- Claim C8 witness: the second record with the same Event Key and counter
name is flagged, even with unrelated records in between. -/
theorem c8_duplicate_detector_witness :
    (dupFlags
      [DupRec.mk ["t1", "u", "entry", "A"] "c",
       DupRec.mk ["t9", "u", "exit", "Z"] "d",
       DupRec.mk ["t1", "u", "entry", "A"] "c"] []).get? 2 = some true :=
  c8_duplicate_detector
    [DupRec.mk ["t1", "u", "entry", "A"] "c",
     DupRec.mk ["t9", "u", "exit", "Z"] "d",
     DupRec.mk ["t1", "u", "entry", "A"] "c"]
    0 2 (DupRec.mk ["t1", "u", "entry", "A"] "c")
    (DupRec.mk ["t1", "u", "entry", "A"] "c")
    (by decide) rfl rfl rfl rfl

/-- Claim C9: fields 2, 3, 4 and 6 of every data row are accessed, and field
6 parsed as a base-10 integer, before the delimiter-counter filter: any row
on which `readRow` fails (fewer than 7 fields, or a non-integer field 6)
aborts the run with that error once the scan reaches it — even when the
row's counter is not the delimiter counter and the row would otherwise be
ignored. -/
theorem c9_row_access_before_filter (pre : List Row) (bad : Row)
    (rest : List Row) (d : Nat) (last : Option Row) (e : Err)
    (hOK : RowsOK pre) (hNE : NoExit (toks pre))
    (hbad : readRow bad = Except.error e) :
    formatRows (pre ++ bad :: rest) d last = Except.error e := by
  apply formatRowsF_error_prop ((pre ++ bad :: rest).length) pre (bad :: rest)
    d last e (le_refl _) hOK hNE
  intro g d' l' hg
  cases g with
  | zero => simp at hg
  | succ g => exact formatRowsF_readErr hbad g rest d' l'

/-- Claim C9 witness: a 7-field row with a non-delimiter counter and a
non-integer field 6 aborts with `ValueError` even though the row plays no
structural role; a 4-field row aborts with `IndexError` (field 4 missing). -/
theorem c9_row_access_before_filter_witness :
    formatRows [["t1", "u", "entry", "E", "OtherCounter", "u", "xyz"]]
      0 none = Except.error Err.valueError ∧
    formatRows [["t1", "u", "entry", "E"]] 0 none =
      Except.error Err.indexError :=
  ⟨c9_row_access_before_filter []
    ["t1", "u", "entry", "E", "OtherCounter", "u", "xyz"] [] 0 none
    Err.valueError rowsOK_nil NoExit.nil rfl,
   c9_row_access_before_filter [] ["t1", "u", "entry", "E"] [] 0 none
    Err.indexError rowsOK_nil NoExit.nil rfl⟩

/-- Claim C10: for the empty record stream — an input file with only the
header line, or data rows none of which carries the delimiter counter (and
all of which parse) — the top-level call returns an empty line sequence and
`none` as terminating exit, so the program prints nothing and completes
without error. -/
theorem c10_empty_stream (files : List String) (header : Row)
    (rows : List Row) (hfiles : files.length = 1) (hOK : RowsOK rows)
    (htoks : toks rows = []) :
    formatRows rows 0 none = Except.ok ([], none, [], lastOf rows none) ∧
    runProgram files (header :: rows) = Except.ok [] := by
  have hNE : NoExit (toks rows) := by
    rw [htoks]
    exact NoExit.nil
  have hrun : formatRows rows 0 none =
      Except.ok ([], none, [], lastOf rows none) := by
    have h := formatRowsF_noexit_run rows.length rows 0 none (le_refl _)
      hOK hNE
    rw [htoks] at h
    exact h
  refine ⟨hrun, ?_⟩
  unfold runProgram
  rw [if_neg (by omega)]
  show (match formatRows rows 0 none with
    | Except.error e => Except.error (ProgErr.rowError e)
    | Except.ok (lines, exitRow?, _, _) =>
      match exitRow? with
      | some _ => Except.error ProgErr.topLevelExitAssert
      | none => Except.ok lines) = _
  rw [hrun]

/-- Claim C10 witness: a header plus one parseable row of a non-delimiter
counter yields empty output and a successful run (and, with `rows := []`,
the header-only case is the same theorem instantiated at the empty list). -/
theorem c10_empty_stream_witness :
    (formatRows [["t1", "u", "entry", "E", "OtherCounter", "u", "5"]] 0 none =
      Except.ok ([], none, [],
        lastOf [["t1", "u", "entry", "E", "OtherCounter", "u", "5"]] none) ∧
     runProgram ["f"]
       [["hdr"], ["t1", "u", "entry", "E", "OtherCounter", "u", "5"]] =
       Except.ok []) ∧
    (formatRows [] 0 none = Except.ok ([], none, [], lastOf [] none) ∧
     runProgram ["f"] [["hdr"]] = Except.ok []) :=
  ⟨c10_empty_stream ["f"] ["hdr"]
    [["t1", "u", "entry", "E", "OtherCounter", "u", "5"]] rfl
    (rowsOK_of_all (by decide)) (by decide),
   c10_empty_stream ["f"] ["hdr"] [] rfl rowsOK_nil rfl⟩
